import Mathlib

/-!
Verification development for the FPGA inference-engine firmware.

Shallow embedding of the firmware sources:
  src/config_struct.hpp   (ConfigIn, StatusOut framing)
  src/unnamed/part_000    (Queue template, queue.hpp)
  src/xaccelerator_hw.h   (register map constants)
  src/accelerator.hpp     (Accelerator driver, simulated registers)
  src/types.hpp           (Task, Command, EngineState)
  src/inference_engine.cpp (engine thread and generation loop)
  src/weight_loader.hpp   (INT4Weights, ModelWeights, WeightLoader)

Machine integers are modelled as Nat (with explicit truncation where the
source truncates) and Int for signed C types.  Stateful methods become
functions from the owning structure to an updated structure.
-/

/-! ### Config / status framing: src/config_struct.hpp -/

/-- ConfigIn from src/config_struct.hpp lines 9-60.  The C struct has three
uint64_t fields, twelve uint32_t fields and a uint32_t reserved array of 20
words, densely packed (no padding), 152 bytes = 38 words in total. -/
structure ConfigIn where
  input_buffer_addr : Nat
  output_buffer_addr : Nat
  kv_cache_addr : Nat
  stride : Nat
  max_tokens : Nat
  batch_size : Nat
  sequence_length : Nat
  num_layers : Nat
  hidden_size : Nat
  num_heads : Nat
  vocab_size : Nat
  prompt_length : Nat
  task_id : Nat
  task_type : Nat
  flags : Nat
  reserved : List Nat
deriving DecidableEq

/-- The zero-initialised ConfigIn (the constructor memsets the struct). -/
def ConfigIn.init : ConfigIn :=
  { input_buffer_addr := 0, output_buffer_addr := 0, kv_cache_addr := 0,
    stride := 0, max_tokens := 0, batch_size := 0, sequence_length := 0,
    num_layers := 0, hidden_size := 0, num_heads := 0, vocab_size := 0,
    prompt_length := 0, task_id := 0, task_type := 0, flags := 0,
    reserved := List.replicate 20 0 }

/-- Well-formedness: the value ranges guaranteed by the C field types
(uint64_t and uint32_t) and the fixed reserved array length. -/
def ConfigIn.wf (c : ConfigIn) : Prop :=
  c.input_buffer_addr < 18446744073709551616 ∧
  c.output_buffer_addr < 18446744073709551616 ∧
  c.kv_cache_addr < 18446744073709551616 ∧
  c.stride < 4294967296 ∧ c.max_tokens < 4294967296 ∧
  c.batch_size < 4294967296 ∧ c.sequence_length < 4294967296 ∧
  c.num_layers < 4294967296 ∧ c.hidden_size < 4294967296 ∧
  c.num_heads < 4294967296 ∧ c.vocab_size < 4294967296 ∧
  c.prompt_length < 4294967296 ∧ c.task_id < 4294967296 ∧
  c.task_type < 4294967296 ∧ c.flags < 4294967296 ∧
  c.reserved.length = 20 ∧ ∀ x ∈ c.reserved, x < 4294967296

/-- ConfigIn::pack (src/config_struct.hpp line 42): memcpy of the struct into
38 little-endian 32-bit words.  Each uint64_t occupies two adjacent words,
low word first; the uint32_t fields follow in declaration order; the 20
reserved words close the block. -/
def ConfigIn.pack (c : ConfigIn) : List Nat :=
  [c.input_buffer_addr % 4294967296, c.input_buffer_addr / 4294967296 % 4294967296,
   c.output_buffer_addr % 4294967296, c.output_buffer_addr / 4294967296 % 4294967296,
   c.kv_cache_addr % 4294967296, c.kv_cache_addr / 4294967296 % 4294967296,
   c.stride, c.max_tokens, c.batch_size, c.sequence_length,
   c.num_layers, c.hidden_size, c.num_heads, c.vocab_size,
   c.prompt_length, c.task_id, c.task_type, c.flags] ++ c.reserved.take 20

/-- ConfigIn::unpack (src/config_struct.hpp line 46): memcpy of 38 words back
into the struct, the inverse byte copy of pack. -/
def ConfigIn.unpack (words : List Nat) : ConfigIn :=
  { input_buffer_addr := words.getD 0 0 + 4294967296 * words.getD 1 0,
    output_buffer_addr := words.getD 2 0 + 4294967296 * words.getD 3 0,
    kv_cache_addr := words.getD 4 0 + 4294967296 * words.getD 5 0,
    stride := words.getD 6 0, max_tokens := words.getD 7 0,
    batch_size := words.getD 8 0, sequence_length := words.getD 9 0,
    num_layers := words.getD 10 0, hidden_size := words.getD 11 0,
    num_heads := words.getD 12 0, vocab_size := words.getD 13 0,
    prompt_length := words.getD 14 0, task_id := words.getD 15 0,
    task_type := words.getD 16 0, flags := words.getD 17 0,
    reserved := (words.drop 18).take 20 }

/-- StatusOut from src/config_struct.hpp lines 63-88: four 32-bit words. -/
structure StatusOut where
  current_token : Nat
  tokens_generated : Nat
  error_code : Nat
  flags : Nat
deriving DecidableEq

def StatusOut.init : StatusOut := ⟨0, 0, 0, 0⟩

/-- StatusOut::isValid: (flags AND 0x01) nonzero. -/
def StatusOut.isValid (s : StatusOut) : Bool := (s.flags &&& 0x01) != 0

/-- StatusOut::isDone: (flags AND 0x02) nonzero. -/
def StatusOut.isDone (s : StatusOut) : Bool := (s.flags &&& 0x02) != 0

/-- StatusOut::unpack: field-wise copy from the four status words. -/
def StatusOut.unpack (w0 w1 w2 w3 : Nat) : StatusOut := ⟨w0, w1, w2, w3⟩

/-! ### Bounded queue: src/unnamed/part_000 (queue.hpp) -/

/-- The Queue template from queue.hpp: fixed buffer of MAX_SIZE elements with
head, tail and count indices.  The C buffer T[MAX_SIZE] is modelled as a list
of length N. -/
structure Queue (α : Type) (N : Nat) where
  buffer : List α
  head : Nat
  tail : Nat
  count : Nat

/-- The default-constructed queue: indices zero, buffer default-filled. -/
def Queue.mkEmpty (α : Type) (N : Nat) (a0 : α) : Queue α N :=
  { buffer := List.replicate N a0, head := 0, tail := 0, count := 0 }

/-- Queue::push: fails when count has reached MAX_SIZE, otherwise stores at
tail, advances tail modulo MAX_SIZE and increments count. -/
def Queue.push {α : Type} {N : Nat} (q : Queue α N) (item : α) : Bool × Queue α N :=
  if N ≤ q.count then (false, q)
  else (true, { buffer := q.buffer.set q.tail item, head := q.head,
                tail := (q.tail + 1) % N, count := q.count + 1 })

/-- Queue::pop: fails when count is zero, otherwise reads at head, advances
head modulo MAX_SIZE and decrements count.  The out-parameter is modelled as
an Option result. -/
def Queue.pop {α : Type} {N : Nat} [Inhabited α] (q : Queue α N) : Option α × Queue α N :=
  if q.count = 0 then (none, q)
  else (some (q.buffer.getD q.head default),
        { q with head := (q.head + 1) % N, count := q.count - 1 })

/-- Queue::tryPop simply delegates to pop. -/
def Queue.tryPop {α : Type} {N : Nat} [Inhabited α] (q : Queue α N) : Option α × Queue α N :=
  q.pop

/-- Queue::full: count has reached MAX_SIZE. -/
def Queue.isFull {α : Type} {N : Nat} (q : Queue α N) : Bool := N ≤ q.count

/-- Queue::empty: count is zero. -/
def Queue.isEmpty {α : Type} {N : Nat} (q : Queue α N) : Bool := q.count = 0

/-- Abstraction relation: queue q represents the element list l (oldest
first).  Carries the structural invariants of the ring buffer. -/
structure QueueRep {α : Type} [Inhabited α] {N : Nat} (q : Queue α N) (l : List α) : Prop where
  hN : 0 < N
  hlen : q.buffer.length = N
  hhead : q.head < N
  hcount : q.count = l.length
  hle : l.length ≤ N
  htail : q.tail = (q.head + q.count) % N
  helem : ∀ j, j < l.length → q.buffer.getD ((q.head + j) % N) default = l.getD j default

/-- One client operation on a queue. -/
inductive QueueOp (α : Type) where
  | push (x : α)
  | pop

/-- Run a sequence of operations; returns the final queue, the list of
successfully pushed items and the list of successfully popped items, both in
chronological order. -/
def runQueue {α : Type} {N : Nat} [Inhabited α] (q : Queue α N) :
    List (QueueOp α) → Queue α N × List α × List α
  | [] => (q, [], [])
  | QueueOp.push x :: ops =>
      let r := q.push x
      let rest := runQueue r.2 ops
      (rest.1, if r.1 then x :: rest.2.1 else rest.2.1, rest.2.2)
  | QueueOp.pop :: ops =>
      let r := q.pop
      let rest := runQueue r.2 ops
      (rest.1, rest.2.1, match r.1 with
        | some a => a :: rest.2.2
        | none => rest.2.2)

/-! ### Register map: src/xaccelerator_hw.h -/

def XACCELERATOR_CTRL_ADDR_AP_CTRL : Nat := 0x00
def XACCELERATOR_AP_CTRL_START : Nat := 0x01
def XACCELERATOR_AP_CTRL_DONE : Nat := 0x02
def XACCELERATOR_AP_CTRL_IDLE : Nat := 0x04
def XACCELERATOR_CONFIG_IN_BASE : Nat := 0x10
def XACCELERATOR_CONFIG_IN_WORDS : Nat := 38
def XACCELERATOR_STATUS_OUT_BASE : Nat := 0xAC
def XACCELERATOR_STATUS_OUT_WORDS : Nat := 4
def XACCELERATOR_STATUS_OUT_CTRL : Nat := 0xBC
def XACCELERATOR_STATUS_OUT_AP_VLD : Nat := 0x01
def XACCELERATOR_IRQ_CLEAR_IN : Nat := 0xD4

/-- XACCELERATOR_CONFIG_IN_OFFSET(n). -/
def XACCELERATOR_CONFIG_IN_OFFSET (n : Nat) : Nat := XACCELERATOR_CONFIG_IN_BASE + n * 4

/-- XACCELERATOR_STATUS_OUT_OFFSET(n). -/
def XACCELERATOR_STATUS_OUT_OFFSET (n : Nat) : Nat := XACCELERATOR_STATUS_OUT_BASE + n * 4

/-- EOS_TOKEN from src/types.hpp. -/
def EOS_TOKEN : Nat := 0xFFFFFFFF

/-! ### Accelerator driver: src/accelerator.hpp -/

/-- The Accelerator private state.  writeReg is a pure printf in the source,
so writes carry no state; the simulated readReg responses are a function of
this state.  token_counter models the function-static counter inside
getNextToken (initially zero, persisting across calls). -/
structure Accelerator where
  config : ConfigIn
  status : StatusOut
  config_words : List Nat
  status_words : List Nat
  input_buffer : List Nat
  output_buffer : List Nat
  kv_cache : List Nat
  token_counter : Nat

/-- The Accelerator constructor: buffers resized and zero-filled, word
arrays memset to zero. -/
def Accelerator.mkInit : Accelerator :=
  { config := ConfigIn.init, status := StatusOut.init,
    config_words := List.replicate 38 0, status_words := List.replicate 4 0,
    input_buffer := List.replicate 4096 0, output_buffer := List.replicate 1024 0,
    kv_cache := List.replicate 65536 0, token_counter := 0 }

/-- Simulated readReg (src/accelerator.hpp lines 34-55): AP_CTRL reads as
IDLE|DONE; offsets inside the 16-byte status window return the cached status
words; the status control offset always reports valid. -/
def Accelerator.readReg (a : Accelerator) (offset : Nat) : Nat :=
  if offset = XACCELERATOR_CTRL_ADDR_AP_CTRL then
    XACCELERATOR_AP_CTRL_IDLE ||| XACCELERATOR_AP_CTRL_DONE
  else if XACCELERATOR_STATUS_OUT_BASE ≤ offset ∧
          offset < XACCELERATOR_STATUS_OUT_BASE + 16 then
    let word_idx := (offset - XACCELERATOR_STATUS_OUT_BASE) / 4
    if word_idx < 4 then a.status_words.getD word_idx 0 else 0
  else if offset = XACCELERATOR_STATUS_OUT_CTRL then
    XACCELERATOR_STATUS_OUT_AP_VLD
  else 0

/-- Accelerator::readStatus: read the valid bit; when set, latch the four
status words and unpack them into the cached StatusOut.  (The C loop writes
status_words[i] from readReg of word i; each read depends only on the old
word i, so the batched form is equivalent.) -/
def Accelerator.readStatus (a : Accelerator) : Accelerator :=
  let ctrl := a.readReg XACCELERATOR_STATUS_OUT_CTRL
  if ctrl &&& XACCELERATOR_STATUS_OUT_AP_VLD = 0 then a
  else
    let w0 := a.readReg (XACCELERATOR_STATUS_OUT_OFFSET 0)
    let w1 := a.readReg (XACCELERATOR_STATUS_OUT_OFFSET 1)
    let w2 := a.readReg (XACCELERATOR_STATUS_OUT_OFFSET 2)
    let w3 := a.readReg (XACCELERATOR_STATUS_OUT_OFFSET 3)
    { a with status_words := [w0, w1, w2, w3], status := StatusOut.unpack w0 w1 w2 w3 }

/-- Accelerator::getNextToken (src/accelerator.hpp lines 141-164): after
readStatus, when the cached status is valid and not done, fabricate a token
from the static counter (post-increment compared against 10): values 11 and
above produce EOS_TOKEN and reset the counter, otherwise the token is
100 + counter and tokens_generated is incremented.  StatusOut::pack_to_words
is an empty helper in the source, so status_words are not written back. -/
def Accelerator.getNextToken (a : Accelerator) : Bool × Nat × Accelerator :=
  let a1 := a.readStatus
  if a1.status.isValid && !a1.status.isDone then
    if a1.token_counter > 10 then
      let a2 := { a1 with
        token_counter := 0,
        status := { a1.status with
          current_token := EOS_TOKEN,
          flags := a1.status.flags ||| 0x02 } }
      (true, EOS_TOKEN, a2)
    else
      let tok := 100 + (a1.token_counter + 1)
      let a2 := { a1 with
        token_counter := a1.token_counter + 1,
        status := { a1.status with
          current_token := tok,
          tokens_generated := a1.status.tokens_generated + 1 } }
      (true, tok, a2)
  else (false, 0, a1)

/-- Accelerator::configure: populate the address and stride fields, re-pack
the config words (register writes are printf-simulated). -/
def Accelerator.configure (a : Accelerator) (input_addr output_addr kv_addr : Nat)
    (stride max_tokens : Nat) : Accelerator :=
  let cfg := { a.config with
    input_buffer_addr := input_addr,
    output_buffer_addr := output_addr,
    kv_cache_addr := kv_addr,
    stride := stride,
    max_tokens := max_tokens }
  { a with config := cfg, config_words := cfg.pack }

/-- Accelerator::setTaskConfig: update task-scoped fields and re-pack.  The
int task id is converted to the uint32_t config field. -/
def Accelerator.setTaskConfig (a : Accelerator) (task_id : Int) (prompt_len : Nat) :
    Accelerator :=
  let cfg := { a.config with
    task_id := (task_id % 4294967296).toNat,
    prompt_length := prompt_len,
    task_type := 0 }
  { a with config := cfg, config_words := cfg.pack }

/-- The copy loop in startInference: tokens are copied into the input buffer
while the index is below both sizes. -/
def copyTokensInto (buf : List Nat) : List Nat → Nat → List Nat
  | [], _ => buf
  | t :: ts, i => if i < buf.length then copyTokensInto (buf.set i t) ts (i + 1) else buf

/-- Accelerator::startInference: setTaskConfig, stage the prompt tokens into
the input buffer (silently truncated at its capacity), write AP_START
(simulated), then mark the cached status as fresh and valid. -/
def Accelerator.startInference (a : Accelerator) (task_id : Int) (tokens : List Nat) :
    Accelerator :=
  let a1 := a.setTaskConfig task_id tokens.length
  let a2 := { a1 with input_buffer := copyTokensInto a1.input_buffer tokens 0 }
  { a2 with status := { a2.status with tokens_generated := 0, flags := 0x01 } }

/-- Accelerator::reset: register writes are simulated; the KV cache is
zero-filled in place. -/
def Accelerator.reset (a : Accelerator) : Accelerator :=
  { a with kv_cache := List.replicate a.kv_cache.length 0 }

/-- State evolution of one getNextToken call (dropping the returned pair). -/
def gntNext (a : Accelerator) : Accelerator := a.getNextToken.2.2

/-- Accelerator state after n successive getNextToken calls. -/
def gntIter (a : Accelerator) : Nat → Accelerator
  | 0 => a
  | n + 1 => gntNext (gntIter a n)

/-- Whether the (n+1)-st successive getNextToken call yields a token. -/
def gntYieldAt (a : Accelerator) (n : Nat) : Bool := (gntIter a n).getNextToken.1

/-- Driver states reachable through the public Accelerator interface from
construction.  (getStatus, isDone and isIdle do not change the state beyond
readStatus, which is included.) -/
inductive AccelReach : Accelerator → Prop where
  | init : AccelReach Accelerator.mkInit
  | configure (a : Accelerator) (i o k s m : Nat) :
      AccelReach a → AccelReach (a.configure i o k s m)
  | setTaskConfig (a : Accelerator) (tid : Int) (pl : Nat) :
      AccelReach a → AccelReach (a.setTaskConfig tid pl)
  | startInference (a : Accelerator) (tid : Int) (toks : List Nat) :
      AccelReach a → AccelReach (a.startInference tid toks)
  | readStatus (a : Accelerator) : AccelReach a → AccelReach a.readStatus
  | getNextToken (a : Accelerator) : AccelReach a → AccelReach (gntNext a)
  | reset (a : Accelerator) : AccelReach a → AccelReach a.reset

/-! ### Engine types: src/types.hpp -/

inductive TaskKind where
  | GENERATE
deriving DecidableEq

/-- Task from src/types.hpp (int id, kind, prompt). -/
structure EngineTask where
  id : Int
  kind : TaskKind
  prompt : String

inductive CommandType where
  | STOP_CURRENT
  | RESET
  | SHUTDOWN
deriving DecidableEq

structure Command where
  type : CommandType

inductive EngineStatus where
  | IDLE
  | GENERATING
  | SHUTTING_DOWN
deriving DecidableEq

/-- EngineState from src/types.hpp; currentTaskId value -1 means null. -/
structure EngineState where
  status : EngineStatus
  currentTaskId : Int
  cancelCurrent : Bool
  resetRequested : Bool
deriving DecidableEq

def EngineState.mkInit : EngineState :=
  { status := EngineStatus.IDLE, currentTaskId := -1,
    cancelCurrent := false, resetRequested := false }

/-! ### Inference engine: src/inference_engine.cpp -/

/-- tokenize: each prompt character cast to uint32_t. -/
def tokenize (text : String) : List Nat := text.data.map Char.toNat

/-- detokenize: tokens below 128 become the single character, others the
bracketed text form. -/
def detokenize (token : Nat) : String :=
  if token < 128 then String.singleton (Char.ofNat token)
  else "[T" ++ toString token ++ "]"

/-- The exact strings handed to sendOutputToUI by the engine. -/
def generatingMark : String := "\n[Generating] "
def eosMark : String := "\n[EOS]\n"
def abortMark : String := "\n[Aborted]\n"
def shutdownAbortMark : String := "\n[Aborted: shutdown requested]\n"
def memClearedGenMark : String := "[Memory cleared]\n"
def memClearedTopMark : String := "\n[Memory cleared]\n"
def maxTokensMark : String := "\n[Max tokens reached]\n"

/-- The three terminal markers named by the specification, as emitted (each
in its own sendOutputToUI call, with the leading newline of that call). -/
def isTerminalMarker3 (s : String) : Bool :=
  s == eosMark || s == abortMark || s == maxTokensMark

/-- The terminal markers actually used by the source: the shutdown path
emits its own distinct abort marker. -/
def isTerminalMarker4 (s : String) : Bool :=
  isTerminalMarker3 s || s == shutdownAbortMark

/-- MAX_TOKENS from runGeneration. -/
def GEN_MAX_TOKENS : Nat := 50

/-- handleTopLevelCommand (src/inference_engine.cpp lines 42-57). -/
def handleTopLevelCommand (cmd : Command) (st : EngineState) (accel : Accelerator) :
    EngineState × Accelerator × List String :=
  match cmd.type with
  | CommandType.SHUTDOWN => ({ st with status := EngineStatus.SHUTTING_DOWN }, accel, [])
  | CommandType.RESET => (st, accel.reset, [memClearedTopMark])
  | CommandType.STOP_CURRENT => (st, accel, [])

/-- Control position of the engine thread between observable steps: either
at the top of the while loop in inferenceEngineThread, or inside the
generation loop of runGeneration with the current token_count. -/
inductive EnginePhase where
  | topLevel
  | inGen (tokenCount : Nat)

/-- Full machine state of the engine thread. -/
structure MState where
  phase : EnginePhase
  st : EngineState
  accel : Accelerator

/-- Engine thread state at startup (after the configure call, which only
affects the accelerator config registers). -/
def MState.mkInit : MState :=
  { phase := EnginePhase.topLevel,
    st := EngineState.mkInit,
    accel := Accelerator.mkInit.configure 0x10000000 0x20000000 0x30000000 128 2048 }

/-- Return from runGeneration followed by the caller fix-up in
inferenceEngineThread (status == GENERATING is reset to IDLE and the task id
cleared; a SHUTTING_DOWN status is left as is). -/
def genExit (st : EngineState) (accel : Accelerator) : MState :=
  if st.status = EngineStatus.GENERATING then
    { phase := EnginePhase.topLevel,
      st := { st with status := EngineStatus.IDLE, currentTaskId := -1 },
      accel := accel }
  else { phase := EnginePhase.topLevel, st := st, accel := accel }

/-- The generation loop body after the command switch (src/inference_engine.cpp
lines 94-116): the cancel check, then getNextToken with EOS handling and
token streaming. -/
def genLoopRest (st : EngineState) (tc : Nat) (accel : Accelerator) :
    MState × List String :=
  if st.cancelCurrent then
    if st.resetRequested then
      (genExit { st with resetRequested := false } accel.reset,
       [abortMark, memClearedGenMark])
    else (genExit st accel, [abortMark])
  else
    match accel.getNextToken with
    | (ok, tok, a2) =>
      if ok then
        if tok = EOS_TOKEN then (genExit st a2, [eosMark])
        else ({ phase := EnginePhase.inGen (tc + 1), st := st, accel := a2 },
              [detokenize tok])
      else ({ phase := EnginePhase.inGen tc, st := st, accel := a2 }, [])

/-- One observable step of the engine thread, with the strings it sends to
the output sink.  cmdPoll and taskPoll are the results of the non-blocking
queue polls made during that step (the queues live in another thread of the
source; a poll result stream covers every interleaving).

At topLevel this is one iteration of the while loop in
inferenceEngineThread; a popped task runs the head of runGeneration (clear
flags, tokenize, emit the generating marker, startInference) and enters the
generation loop.  At inGen it is one iteration of the loop in runGeneration:
the command switch (a SHUTDOWN emits its abort notice, flips the state and
returns), then genLoopRest.  When status is SHUTTING_DOWN at topLevel the
while loop has exited and the state is final. -/
def engineSmallStep (m : MState) (cmdPoll : Option Command) (taskPoll : Option EngineTask) :
    MState × List String :=
  match m.phase with
  | EnginePhase.topLevel =>
    if m.st.status = EngineStatus.SHUTTING_DOWN then (m, [])
    else if m.st.status = EngineStatus.IDLE then
      match cmdPoll with
      | some cmd =>
        let r := handleTopLevelCommand cmd m.st m.accel
        ({ m with st := r.1, accel := r.2.1 }, r.2.2)
      | none =>
        match taskPoll with
        | some task =>
          let st := { m.st with
            currentTaskId := task.id,
            status := EngineStatus.GENERATING,
            cancelCurrent := false,
            resetRequested := false }
          let promptTokens := tokenize task.prompt
          let accel := m.accel.startInference task.id promptTokens
          ({ phase := EnginePhase.inGen 0, st := st, accel := accel },
           [generatingMark])
        | none => (m, [])
    else (m, [])
  | EnginePhase.inGen tc =>
    if GEN_MAX_TOKENS ≤ tc then (genExit m.st m.accel, [maxTokensMark])
    else
      match cmdPoll with
      | some cmd =>
        match cmd.type with
        | CommandType.SHUTDOWN =>
          let st := { m.st with
            cancelCurrent := true,
            status := EngineStatus.SHUTTING_DOWN }
          (genExit st m.accel, [shutdownAbortMark])
        | CommandType.RESET =>
          genLoopRest { m.st with cancelCurrent := true, resetRequested := true } tc m.accel
        | CommandType.STOP_CURRENT =>
          genLoopRest { m.st with cancelCurrent := true } tc m.accel
      | none => genLoopRest m.st tc m.accel

/-- Drive the machine while it remains inside the generation loop, feeding
one command-poll result per iteration and collecting output.  Returns none
when the supplied poll stream is exhausted before the loop exits. -/
def genRun (m : MState) (polls : List (Option Command)) (acc_out : List String) :
    Option (MState × List String) :=
  match m.phase with
  | EnginePhase.topLevel => some (m, acc_out)
  | EnginePhase.inGen _ =>
    match polls with
    | [] => none
    | p :: rest =>
      let r := engineSmallStep m p none
      genRun r.1 rest (acc_out ++ r.2)

/-- Pop one task at an idle top level and run the whole generation with the
given command-poll stream, collecting everything the engine emits for this
task. -/
def taskRun (task : EngineTask) (polls : List (Option Command)) (st : EngineState)
    (accel : Accelerator) : Option (MState × List String) :=
  let m0 : MState := { phase := EnginePhase.topLevel, st := st, accel := accel }
  let r := engineSmallStep m0 none (some task)
  genRun r.1 polls r.2

/-- Engine thread states reachable by the step relation from startup, for
poll streams whose tasks carry real ids (the shell numbers tasks from 1). -/
inductive EngineReach : MState → Prop where
  | init : EngineReach MState.mkInit
  | step (m : MState) (c : Option Command) (t : Option EngineTask) :
      EngineReach m → (∀ tk, t = some tk → tk.id ≠ -1) →
      EngineReach (engineSmallStep m c t).1

/-- The strengthened engine-thread invariant used to prove the EngineState
invariants: inside the generation loop the status is GENERATING with both
flags clear and a real task id; at top level the status is never GENERATING
and an idle engine has no task id and no pending reset. -/
def StrongInv (m : MState) : Prop :=
  (∀ tc, m.phase = EnginePhase.inGen tc →
      m.st.status = EngineStatus.GENERATING ∧ m.st.cancelCurrent = false ∧
      m.st.resetRequested = false ∧ m.st.currentTaskId ≠ -1) ∧
  (m.phase = EnginePhase.topLevel →
      m.st.status ≠ EngineStatus.GENERATING ∧
      (m.st.status = EngineStatus.IDLE →
        m.st.currentTaskId = -1 ∧ m.st.resetRequested = false))

/-- A concrete generation task (id 1, the shell numbers tasks from 1). -/
def cexGenTask : EngineTask := ⟨1, TaskKind.GENERATE, "hi"⟩

/-- Engine state after popping cexGenTask at idle (one engine step). -/
def cexEngineM1 : MState :=
  (engineSmallStep MState.mkInit none (some cexGenTask)).1

/-- Engine state after the generation is then aborted by a STOP command
(second engine step). -/
def cexEngineM2 : MState :=
  (engineSmallStep cexEngineM1 (some (Command.mk CommandType.STOP_CURRENT)) none).1

/-! ### Weight loader: src/weight_loader.hpp -/

/-- INT4Weights: packed nibble storage (two weights per byte), weight count,
byte size, quantisation scale (an f32 whose value no claim depends on,
carried as its bit pattern) and zero point (int8_t). -/
structure INT4Weights where
  data : List Nat
  num_weights : Nat
  data_size : Nat
  scale : Nat
  zero_point : Int

/-- INT4Weights::getWeight (src/weight_loader.hpp lines 29-50): out-of-range
indices return 0; otherwise the nibble (upper for odd indices) is extracted
and sign-extended from 4 to 8 bits.  Setting the high nibble 0xF0 on an
int8_t value in [8, 15] yields value - 16. -/
def INT4Weights.getWeight (b : INT4Weights) (idx : Nat) : Int :=
  if b.num_weights ≤ idx then 0
  else
    let byte := b.data.getD (idx / 2) 0
    let value : Nat := if idx % 2 = 1 then (byte >>> 4) &&& 0x0F else byte &&& 0x0F
    if value &&& 0x08 ≠ 0 then (value : Int) - 16 else (value : Int)

/-- INT4Weights::setWeight (src/weight_loader.hpp lines 53-70): out-of-range
indices are ignored; the value is clamped to [-8, 7], masked to its low
nibble (int8_t AND 0x0F equals the value modulo 16) and merged into the
byte. -/
def INT4Weights.setWeight (b : INT4Weights) (idx : Nat) (v : Int) : INT4Weights :=
  if b.num_weights ≤ idx then b
  else
    let value : Int := if 7 < v then 7 else if v < -8 then -8 else v
    let masked : Nat := (value % 16).toNat
    let byte_idx := idx / 2
    let old := b.data.getD byte_idx 0
    if idx % 2 = 1 then
      { b with data := b.data.set byte_idx ((old &&& 0x0F) ||| (masked <<< 4)) }
    else
      { b with data := b.data.set byte_idx ((old &&& 0xF0) ||| masked) }

/-- The clamp applied by setWeight: values restricted to [-8, 7]. -/
def clampInt4 (v : Int) : Int := if 7 < v then 7 else if v < -8 then -8 else v

/-- LayerWeights: six INT4 blocks, four layer-norm vectors (modelled by
their element lists; elements are f32 bit patterns) and metadata. -/
structure LayerWeights where
  name : String
  q_weights : INT4Weights
  k_weights : INT4Weights
  v_weights : INT4Weights
  o_weights : INT4Weights
  ffn_up : INT4Weights
  ffn_down : INT4Weights
  ln1_weight : List Nat
  ln1_bias : List Nat
  ln2_weight : List Nat
  ln2_bias : List Nat
  layer_idx : Nat
  hidden_size : Nat
  intermediate_size : Nat

/-- ModelWeights: embeddings, layers, lm head and config. -/
structure ModelWeights where
  token_embeddings : List Nat
  position_embeddings : List Nat
  layers : List LayerWeights
  lm_head : List Nat
  num_layers : Nat
  hidden_size : Nat
  num_heads : Nat
  vocab_size : Nat
  max_seq_len : Nat

/-- WeightLoader state: the parsed weights and the DDR region registered by
allocateDDR (the virtual pointer carries no information in the model). -/
structure WeightLoader where
  weights : ModelWeights
  loaded : Bool
  ddr_weights_phys : Nat
  ddr_weights_size : Nat

/-- WeightLoader::calculateDDRSize (src/weight_loader.hpp lines 151-178):
embeddings and lm head at 2 bytes per element after f16 conversion, the six
packed INT4 blocks at their raw byte sizes, the four layer-norm vectors at 2
bytes per element. -/
def calculateDDRSize (w : ModelWeights) : Nat :=
  let total := w.token_embeddings.length * 2 + w.position_embeddings.length * 2
  let total := w.layers.foldl (fun acc layer =>
    acc + layer.q_weights.data_size + layer.k_weights.data_size +
    layer.v_weights.data_size + layer.o_weights.data_size +
    layer.ffn_up.data_size + layer.ffn_down.data_size +
    layer.ln1_weight.length * 2 + layer.ln1_bias.length * 2 +
    layer.ln2_weight.length * 2 + layer.ln2_bias.length * 2) total
  total + w.lm_head.length * 2

/-- The DDR bytes one layer contributes in calculateDDRSize and
getLayerAddress: six raw INT4 blocks plus four f16 layer-norm vectors. -/
def layerFullBytes (l : LayerWeights) : Nat :=
  l.q_weights.data_size + l.k_weights.data_size + l.v_weights.data_size +
  l.o_weights.data_size + l.ffn_up.data_size + l.ffn_down.data_size +
  l.ln1_weight.length * 2 + l.ln1_bias.length * 2 +
  l.ln2_weight.length * 2 + l.ln2_bias.length * 2

/-- WeightLoader::float_to_fp16 (src/weight_loader.hpp lines 181-196) on the
32-bit pattern of the input float (the C code reinterprets the float bytes
as uint32_t): sign bit 31, 8-bit exponent rebiased by -127+15 in an int16_t,
23-bit mantissa truncated to 10 bits. -/
def float_to_fp16 (bits : Nat) : Nat :=
  let sign := (bits >>> 31) &&& 0x1
  let exp := (bits >>> 23) &&& 0xFF
  let mantissa := bits &&& 0x7FFFFF
  let new_exp : Int := (exp : Int) - 127 + 15
  if new_exp ≤ 0 then 0
  else if 31 ≤ new_exp then (sign <<< 15) ||| 0x7C00
  else (sign <<< 15) ||| (new_exp.toNat <<< 10) ||| (mantissa >>> 13)

/-- Modelled from the claim wording for C9 (refinement counterpart of
float_to_fp16): the result stated arithmetically, with the sign taken from
input bit 31, the 5-bit exponent field holding the rebiased exponent and
the 10-bit mantissa field holding input bits 22:13. -/
def float_to_fp16_spec (bits : Nat) : Nat :=
  let sign : Nat := bits / 2 ^ 31
  let exp : Nat := bits / 2 ^ 23 % 2 ^ 8
  let new_exp : Int := (exp : Int) - 127 + 15
  if new_exp ≤ 0 then 0
  else if 31 ≤ new_exp then sign * 2 ^ 15 + 0x7C00
  else sign * 2 ^ 15 + new_exp.toNat * 2 ^ 10 + bits / 2 ^ 13 % 2 ^ 10

/-- WeightLoader::allocateDDR (src/weight_loader.hpp lines 355-373): record
the region, then fail exactly when the computed requirement exceeds the
region size. -/
def WeightLoader.allocateDDR (wl : WeightLoader) (phys_addr : Nat) (size : Nat) :
    Bool × WeightLoader :=
  let wl1 := { wl with ddr_weights_phys := phys_addr, ddr_weights_size := size }
  if size < calculateDDRSize wl1.weights then (false, wl1) else (true, wl1)

/-- The bytes WeightLoader::copyToDDR (src/weight_loader.hpp lines 402-430)
writes for one layer: the six packed INT4 blocks followed by the ln1_weight
vector as f16.  (The loop converts only ln1_weight; ln1_bias, ln2_weight and
ln2_bias are never copied.) -/
def copyLayerBytes (l : LayerWeights) : Nat :=
  l.q_weights.data_size + l.k_weights.data_size + l.v_weights.data_size +
  l.o_weights.data_size + l.ffn_up.data_size + l.ffn_down.data_size +
  l.ln1_weight.length * 2

/-- Total bytes copyToDDR advances its offset by: token embeddings as f16
(position embeddings are never copied), then each layer in order. -/
def copyToDDRBytes (w : ModelWeights) : Nat :=
  w.layers.foldl (fun acc l => acc + copyLayerBytes l) (w.token_embeddings.length * 2)

/-- WeightLoader::getLayerAddress (src/weight_loader.hpp lines 439-462):
physical base plus both embedding tables as f16 plus the full serialized
size (six blocks and all four layer-norm vectors) of every preceding
layer. -/
def WeightLoader.getLayerAddress (wl : WeightLoader) (layer_idx : Nat) : Nat :=
  if wl.weights.layers.length ≤ layer_idx then 0
  else
    let off0 := wl.weights.token_embeddings.length * 2 +
      wl.weights.position_embeddings.length * 2
    let off := (wl.weights.layers.take layer_idx).foldl
      (fun acc l => acc + layerFullBytes l) off0
    wl.ddr_weights_phys + off

/-- A one-byte INT4 block (one weight), as the parser allocates for a model
with hidden_size = intermediate_size = 1. -/
def cexBlock : INT4Weights :=
  { data := [0], num_weights := 1, data_size := 1, scale := 0, zero_point := 0 }

/-- A layer of the failing model for C5: hidden = intermediate = 1, so each
INT4 block is one byte and each layer-norm vector has one element. -/
def cexLayer : LayerWeights :=
  { name := "", q_weights := cexBlock, k_weights := cexBlock, v_weights := cexBlock,
    o_weights := cexBlock, ffn_up := cexBlock, ffn_down := cexBlock,
    ln1_weight := [0], ln1_bias := [0], ln2_weight := [0], ln2_bias := [0],
    layer_idx := 0, hidden_size := 1, intermediate_size := 1 }

/-- The failing model for C5: two layers, vocab = max_seq = hidden = 1. -/
def cexModel : ModelWeights :=
  { token_embeddings := [0], position_embeddings := [0],
    layers := [cexLayer, { cexLayer with layer_idx := 1 }], lm_head := [],
    num_layers := 2, hidden_size := 1, num_heads := 1, vocab_size := 1,
    max_seq_len := 1 }

/-- The loader holding the failing model, DDR region at the suggested weight
base. -/
def cexLoader : WeightLoader :=
  { weights := cexModel, loaded := true,
    ddr_weights_phys := 0x10000000, ddr_weights_size := 1024 }

/-! ## Claim theorems -/

/-- Claim C1: for every ConfigIn value c (well-formed for its C field types),
unpacking the 38-word array produced by packing c yields a ConfigIn equal to
c field-for-field, and pack is deterministic. -/
theorem configin_unpack_pack_roundtrip (c : ConfigIn) (h : c.wf) :
    ConfigIn.unpack c.pack = c ∧ c.pack = c.pack := by
  obtain ⟨h1, h2, h3, _, _, _, _, _, _, _, _, _, _, _, _, hlen, _⟩ := h
  have htake : (c.reserved.take 20).take 20 = c.reserved := by
    rw [List.take_take]
    simp only [min_self]
    exact List.take_of_length_le (by omega)
  refine ⟨?_, rfl⟩
  cases c
  unfold ConfigIn.pack ConfigIn.unpack
  dsimp only at h1 h2 h3 hlen htake ⊢
  simp only [List.cons_append, List.nil_append, List.getD_cons_zero,
    List.getD_cons_succ, List.drop_succ_cons, List.drop_zero]
  congr 1 <;> omega

/-- Concrete ConfigIn of spec scenario 6, used as the C1 witness input. -/
def scenarioConfig : ConfigIn :=
  { ConfigIn.init with
    input_buffer_addr := 0x1122334455667788,
    stride := 128,
    max_tokens := 2048,
    task_id := 42 }

/-- Witness for C1 at the concrete ConfigIn from spec scenario 6. -/
theorem configin_unpack_pack_roundtrip_witness :
    scenarioConfig.wf ∧
    (ConfigIn.unpack scenarioConfig.pack = scenarioConfig ∧
     scenarioConfig.pack = scenarioConfig.pack) :=
  have hwf : scenarioConfig.wf := by
    refine ⟨?_, ?_, ?_, ?_, ?_, ?_, ?_, ?_, ?_, ?_, ?_, ?_, ?_, ?_, ?_, ?_, ?_⟩ <;>
      decide
  ⟨hwf, configin_unpack_pack_roundtrip _ hwf⟩

/-! ### Helper lemmas -/

/-- getD after set at the same index. -/
theorem getD_set_self_nat {α : Type} {l : List α} {i : Nat} (h : i < l.length) (a d : α) :
    (l.set i a).getD i d = a := by
  simp [List.getD_eq_getElem?_getD, List.getElem?_set_self h]

/-- Writing nibble m into the high half of a byte and reading it back. -/
theorem nibble_hi_roundtrip (old m : Nat) (hm : m < 16) :
    (((old &&& 15) ||| (m <<< 4)) >>> 4) &&& 15 = m := by
  have h15 : (15 : Nat) = 2 ^ 4 - 1 := by norm_num
  have ho : old &&& 15 = old % 16 := by
    rw [h15, Nat.and_pow_two_sub_one_eq_mod]
  have hcomb : (old &&& 15) ||| (m <<< 4) = 2 ^ 4 * m + (old &&& 15) := by
    rw [Nat.or_comm, Nat.shiftLeft_eq, Nat.mul_comm]
    exact (Nat.mul_add_lt_is_or (by omega) m).symm
  rw [hcomb, Nat.shiftRight_eq_div_pow]
  have hdiv : (2 ^ 4 * m + (old &&& 15)) / 2 ^ 4 = m := by
    rw [Nat.mul_add_div (by norm_num)]
    have : (old &&& 15) / 2 ^ 4 = 0 := Nat.div_eq_of_lt (by omega)
    omega
  rw [hdiv, h15, Nat.and_pow_two_sub_one_eq_mod]
  omega

/-- Writing nibble m into the low half of a byte and reading it back. -/
theorem nibble_lo_roundtrip (old m : Nat) (hm : m < 16) :
    ((old &&& 240) ||| m) &&& 15 = m := by
  rw [Nat.and_distrib_right, Nat.and_assoc]
  have h240 : (240 : Nat) &&& 15 = 0 := by decide
  rw [h240, Nat.and_zero, Nat.zero_or]
  have h15 : (15 : Nat) = 2 ^ 4 - 1 := by norm_num
  rw [h15, Nat.and_pow_two_sub_one_eq_mod]
  omega

/-- Sign extension of a stored 4-bit two-complement value recovers the
original value in [-8, 7]. -/
theorem sign_extend_nibble (c : Int) (h1 : -8 ≤ c) (h2 : c ≤ 7) :
    (if (c % 16).toNat &&& 8 ≠ 0 then ((c % 16).toNat : Int) - 16
     else ((c % 16).toNat : Int)) = c := by
  have hball : ∀ m < 16, ((m &&& 8 ≠ 0) ↔ 8 ≤ m) := by decide
  have hm : (c % 16).toNat < 16 := by omega
  have h8 := hball _ hm
  split
  · next hcond =>
      have := h8.mp hcond
      omega
  · next hcond =>
      have : ¬ 8 ≤ (c % 16).toNat := fun hh => hcond (h8.mpr hh)
      omega

/-- The folded layer sum in calculateDDRSize as a mapped list sum. -/
theorem ddr_layer_foldl (ls : List LayerWeights) :
    ∀ init : Nat,
      ls.foldl (fun acc layer =>
        acc + layer.q_weights.data_size + layer.k_weights.data_size +
        layer.v_weights.data_size + layer.o_weights.data_size +
        layer.ffn_up.data_size + layer.ffn_down.data_size +
        layer.ln1_weight.length * 2 + layer.ln1_bias.length * 2 +
        layer.ln2_weight.length * 2 + layer.ln2_bias.length * 2) init =
      init + (ls.map layerFullBytes).sum := by
  induction ls with
  | nil => intro init; simp
  | cons l ls ih =>
      intro init
      rw [List.foldl_cons, ih, List.map_cons, List.sum_cons]
      unfold layerFullBytes
      omega

/-- calculateDDRSize written as the explicit sum of its parts. -/
theorem calculateDDRSize_eq (w : ModelWeights) :
    calculateDDRSize w =
      w.token_embeddings.length * 2 + w.position_embeddings.length * 2 +
      (w.layers.map layerFullBytes).sum + w.lm_head.length * 2 := by
  unfold calculateDDRSize
  dsimp only
  rw [ddr_layer_foldl]

/-- Claim C6: for every INT4 block, index below num_weights and i8 value v,
setWeight then getWeight at that index returns v clamped to [-8, 7], and the
result is negative whenever v is negative (sign extension of stored values
with bit 3 set).  The length hypothesis is the allocate invariant: the
packed buffer holds ceil(num_weights / 2) bytes. -/
theorem int4_set_then_get (b : INT4Weights) (idx : Nat) (v : Int)
    (hidx : idx < b.num_weights) (hlen : b.data.length = (b.num_weights + 1) / 2) :
    (b.setWeight idx v).getWeight idx = clampInt4 v ∧
    (v < 0 → (b.setWeight idx v).getWeight idx < 0) := by
  have hni : ¬ b.num_weights ≤ idx := by omega
  have hb2 : idx / 2 < b.data.length := by omega
  have hcb : -8 ≤ clampInt4 v ∧ clampInt4 v ≤ 7 := by
    unfold clampInt4; split_ifs <;> omega
  have hmask : (clampInt4 v % 16).toNat < 16 := by omega
  have hmain : (b.setWeight idx v).getWeight idx = clampInt4 v := by
    unfold INT4Weights.setWeight
    rw [if_neg hni]
    simp only
    by_cases hpar : idx % 2 = 1
    · rw [if_pos hpar]
      unfold INT4Weights.getWeight
      simp only
      rw [if_neg hni, if_pos hpar]
      rw [getD_set_self_nat hb2]
      rw [show (if 7 < v then (7 : Int) else if v < -8 then -8 else v) = clampInt4 v from rfl]
      rw [nibble_hi_roundtrip _ _ hmask]
      exact sign_extend_nibble _ hcb.1 hcb.2
    · rw [if_neg hpar]
      unfold INT4Weights.getWeight
      simp only
      rw [if_neg hni, if_neg hpar]
      rw [getD_set_self_nat hb2]
      rw [show (if 7 < v then (7 : Int) else if v < -8 then -8 else v) = clampInt4 v from rfl]
      rw [nibble_lo_roundtrip _ _ hmask]
      exact sign_extend_nibble _ hcb.1 hcb.2
  refine ⟨hmain, fun hv => ?_⟩
  rw [hmain]
  unfold clampInt4
  split_ifs <;> omega

/-- Witness for C6: a three-weight block, index 1, value -5. -/
theorem int4_set_then_get_witness :
    (1 < 3 ∧ [(0 : Nat), 0].length = (3 + 1) / 2) ∧
    (({ data := [0, 0], num_weights := 3, data_size := 2, scale := 0,
        zero_point := 0 : INT4Weights }.setWeight 1 (-5)).getWeight 1 =
        clampInt4 (-5) ∧
     ((-5 : Int) < 0 →
      ({ data := [0, 0], num_weights := 3, data_size := 2, scale := 0,
         zero_point := 0 : INT4Weights }.setWeight 1 (-5)).getWeight 1 < 0)) :=
  ⟨⟨by decide, by decide⟩,
   int4_set_then_get _ 1 (-5) (by decide) (by decide)⟩

/-- Claim C10: out-of-range accesses on an INT4 block are total and
harmless: getWeight returns 0 without touching the packed bytes, setWeight
leaves the block (in particular its packed data) unchanged. -/
theorem int4_out_of_range_safe (b : INT4Weights) (idx : Nat) (v : Int)
    (h : b.num_weights ≤ idx) :
    b.getWeight idx = 0 ∧ b.setWeight idx v = b := by
  constructor
  · unfold INT4Weights.getWeight
    rw [if_pos h]
  · unfold INT4Weights.setWeight
    rw [if_pos h]

/-- Witness for C10 at a one-weight block, index 5. -/
theorem int4_out_of_range_safe_witness :
    cexBlock.num_weights ≤ 5 ∧
    (cexBlock.getWeight 5 = 0 ∧ cexBlock.setWeight 5 3 = cexBlock) :=
  ⟨by decide, int4_out_of_range_safe cexBlock 5 3 (by decide)⟩

/-- Claim C8: allocateDDR fails exactly when the computed requirement (both
embedding tables at 2 bytes per element, the raw bytes of all six INT4
blocks of every layer, the four layer-norm vectors per layer at 2 bytes per
element, and the lm head at 2 bytes per element) exceeds the region size. -/
theorem allocateDDR_fails_iff (wl : WeightLoader) (phys size : Nat) :
    (wl.allocateDDR phys size).1 = false ↔
      size < wl.weights.token_embeddings.length * 2 +
        wl.weights.position_embeddings.length * 2 +
        (wl.weights.layers.map layerFullBytes).sum +
        wl.weights.lm_head.length * 2 := by
  unfold WeightLoader.allocateDDR
  dsimp only
  rw [calculateDDRSize_eq]
  by_cases h : size < wl.weights.token_embeddings.length * 2 +
      wl.weights.position_embeddings.length * 2 +
      (wl.weights.layers.map layerFullBytes).sum +
      wl.weights.lm_head.length * 2
  · rw [if_pos h]
    exact iff_of_true rfl h
  · rw [if_neg h]
    exact iff_of_false (by simp) h

/-- Claim C5 (code bug exhibit): on the two-layer model with hidden size 1,
getLayerAddress spaces consecutive layers 14 bytes apart (six blocks plus
all four layer-norm vectors), but copyToDDR writes only 8 bytes for the
layer (six blocks plus ln1_weight only), so the address map does not match
the staged bytes. -/
theorem getLayerAddress_vs_copyToDDR_bug :
    cexLoader.getLayerAddress 1 - cexLoader.getLayerAddress 0 = 14 ∧
    copyLayerBytes cexLayer = 8 ∧ layerFullBytes cexLayer = 14 ∧ (14 : Nat) ≠ 8 := by
  refine ⟨?_, by decide, by decide, by decide⟩
  decide

/-- Claim C9: for every 32-bit input pattern, float_to_fp16 returns 0 on
underflow (rebiased exponent at most 0), sign-preserving infinity on
overflow (rebiased exponent at least 31), and otherwise packs the sign from
bit 31, the rebiased 5-bit exponent and input bits 22:13 as the mantissa,
as stated arithmetically by float_to_fp16_spec. -/
theorem float_to_fp16_correct (bits : Nat) (h : bits < 4294967296) :
    float_to_fp16 bits = float_to_fp16_spec bits := by
  simp only [float_to_fp16, float_to_fp16_spec]
  have h31 : (2 : Nat) ^ 31 = 2147483648 := by norm_num
  have hsign : (bits >>> 31) &&& 1 = bits / 2 ^ 31 := by
    rw [Nat.shiftRight_eq_div_pow, Nat.and_one_is_mod]
    have : bits / 2 ^ 31 < 2 := by omega
    omega
  have hexp : (bits >>> 23) &&& 255 = bits / 2 ^ 23 % 2 ^ 8 := by
    rw [Nat.shiftRight_eq_div_pow,
      show (255 : Nat) = 2 ^ 8 - 1 from by norm_num,
      Nat.and_pow_two_sub_one_eq_mod]
  have hman : (bits &&& 8388607) >>> 13 = bits / 2 ^ 13 % 2 ^ 10 := by
    rw [show (8388607 : Nat) = 2 ^ 23 - 1 from by norm_num,
      Nat.and_pow_two_sub_one_eq_mod, Nat.shiftRight_eq_div_pow,
      show (2 : Nat) ^ 23 = 2 ^ 13 * 2 ^ 10 from by norm_num]
    exact Nat.mod_mul_right_div_self bits (2 ^ 13) (2 ^ 10)
  rw [hsign, hexp, hman]
  have hslt : bits / 2 ^ 31 < 2 := by omega
  have hm13 : bits / 2 ^ 13 % 2 ^ 10 < 2 ^ 10 := Nat.mod_lt _ (by norm_num)
  split
  · rfl
  · next hne0 =>
    split
    · next hne31 =>
      have hcases : bits / 2 ^ 31 = 0 ∨ bits / 2 ^ 31 = 1 := by omega
      rcases hcases with h0 | h1
      · rw [h0]; decide
      · rw [h1]; decide
    · next hne31 =>
      have hnelt : ((bits / 2 ^ 23 % 2 ^ 8 : Nat) : Int) - 127 + 15 < 31 := by omega
      have hnegt : 0 < ((bits / 2 ^ 23 % 2 ^ 8 : Nat) : Int) - 127 + 15 := by omega
      set ne := (((bits / 2 ^ 23 % 2 ^ 8 : Nat) : Int) - 127 + 15).toNat with hnedef
      have hnebound : ne < 32 := by omega
      rw [Nat.shiftLeft_eq, Nat.shiftLeft_eq]
      have e1 : bits / 2 ^ 31 * 2 ^ 15 ||| ne * 2 ^ 10 =
          bits / 2 ^ 31 * 2 ^ 15 + ne * 2 ^ 10 := by
        rw [Nat.mul_comm (bits / 2 ^ 31) (2 ^ 15)]
        exact (Nat.mul_add_lt_is_or (by nlinarith) (bits / 2 ^ 31)).symm
      rw [e1]
      have e2 : bits / 2 ^ 31 * 2 ^ 15 + ne * 2 ^ 10 =
          2 ^ 10 * (bits / 2 ^ 31 * 2 ^ 5 + ne) := by ring
      rw [e2, ← Nat.mul_add_lt_is_or hm13 (bits / 2 ^ 31 * 2 ^ 5 + ne)]

/-- Witness for C9 at the bit pattern of 1.0f. -/
theorem float_to_fp16_correct_witness :
    0x3F800000 < 4294967296 ∧
    float_to_fp16 0x3F800000 = float_to_fp16_spec 0x3F800000 :=
  ⟨by decide, float_to_fp16_correct 0x3F800000 (by decide)⟩

/-- readStatus on an accelerator whose cached status words are all zero:
the simulated valid bit is set, the four zero words are latched and the
cached status becomes all-zero. -/
theorem readStatus_zero (a : Accelerator) (h : a.status_words = [0, 0, 0, 0]) :
    a.readStatus = { a with status_words := [0, 0, 0, 0], status := ⟨0, 0, 0, 0⟩ } := by
  simp [Accelerator.readStatus, Accelerator.readReg, XACCELERATOR_STATUS_OUT_CTRL,
    XACCELERATOR_CTRL_ADDR_AP_CTRL, XACCELERATOR_STATUS_OUT_BASE,
    XACCELERATOR_STATUS_OUT_AP_VLD, XACCELERATOR_STATUS_OUT_OFFSET,
    XACCELERATOR_AP_CTRL_IDLE, XACCELERATOR_AP_CTRL_DONE, h, StatusOut.unpack]

/-- getNextToken on an accelerator whose cached status words are all zero
never yields: the latched status has a clear valid flag. -/
theorem getNextToken_eq_of_zero (a : Accelerator) (h : a.status_words = [0, 0, 0, 0]) :
    a.getNextToken = (false, 0, a.readStatus) := by
  simp only [Accelerator.getNextToken]
  rw [readStatus_zero a h]
  simp [StatusOut.isValid, StatusOut.isDone]

/-- Every driver state reachable through the public interface keeps the
cached status words at zero: the constructor zeroes them, the only writes
copy them onto themselves (StatusOut::pack_to_words is an empty helper). -/
theorem accelReach_words_zero (a : Accelerator) (h : AccelReach a) :
    a.status_words = [0, 0, 0, 0] := by
  induction h with
  | init => rfl
  | configure a i o k s m _ ih => exact ih
  | setTaskConfig a tid pl _ ih => exact ih
  | startInference a tid toks _ ih => exact ih
  | readStatus a _ ih => rw [readStatus_zero a ih]
  | getNextToken a _ ih =>
      unfold gntNext
      rw [getNextToken_eq_of_zero a ih, readStatus_zero a ih]
  | reset a _ ih => exact ih

/-- Iterated getNextToken stays within the reachable driver states. -/
theorem accelReach_gntIter (a : Accelerator) (h : AccelReach a) (n : Nat) :
    AccelReach (gntIter a n) := by
  induction n with
  | zero => exact h
  | succ n ih => exact AccelReach.getNextToken _ ih

/-- Claim C2: along every sequence of successive getNextToken calls from a
reachable driver state, no token is double-counted: whenever two calls both
yield, the authoritative counter status.tokens_generated has strictly
advanced between them.  (In this simulated driver the property holds
because no call ever yields: readStatus always latches the zero status
words, clearing the valid flag before the fabrication branch can run.) -/
theorem getNextToken_no_double_count (a : Accelerator) (h : AccelReach a) :
    ∀ j k : Nat, j < k → gntYieldAt a j = true → gntYieldAt a k = true →
      (gntIter a (j + 1)).status.tokens_generated <
        (gntIter a (k + 1)).status.tokens_generated := by
  intro j k _ hj _
  exfalso
  have hz := accelReach_words_zero _ (accelReach_gntIter a h j)
  have hfalse : gntYieldAt a j = false := by
    unfold gntYieldAt
    rw [getNextToken_eq_of_zero _ hz]
  rw [hfalse] at hj
  exact Bool.noConfusion hj

/-- Witness for C2 at the freshly constructed driver. -/
theorem getNextToken_no_double_count_witness :
    AccelReach Accelerator.mkInit ∧
    (∀ j k : Nat, j < k → gntYieldAt Accelerator.mkInit j = true →
      gntYieldAt Accelerator.mkInit k = true →
      (gntIter Accelerator.mkInit (j + 1)).status.tokens_generated <
        (gntIter Accelerator.mkInit (k + 1)).status.tokens_generated) :=
  ⟨AccelReach.init, getNextToken_no_double_count _ AccelReach.init⟩

/-- Injectivity of ring-buffer indices below the capacity. -/
theorem add_mod_inj {N a j k : Nat} (hj : j < N) (hk : k < N)
    (h : (a + j) % N = (a + k) % N) : j = k := by
  have h1 : j % N = k % N := Nat.ModEq.add_left_cancel' a h
  rwa [Nat.mod_eq_of_lt hj, Nat.mod_eq_of_lt hk] at h1

/-- The empty queue represents the empty list. -/
theorem queueRep_mkEmpty {α : Type} [Inhabited α] {N : Nat} (hN : 0 < N) (a0 : α) :
    QueueRep (Queue.mkEmpty α N a0) [] := by
  refine ⟨hN, ?_, hN, rfl, by simp, ?_, ?_⟩
  · simp [Queue.mkEmpty]
  · simp [Queue.mkEmpty]
  · intro j hj
    simp at hj

/-- push on a non-full queue succeeds and appends to the represented list;
push on a full queue fails and leaves the queue unchanged. -/
theorem queueRep_push {α : Type} [Inhabited α] {N : Nat} (q : Queue α N) (l : List α)
    (hr : QueueRep q l) (x : α) :
    (l.length < N → (q.push x).1 = true ∧ QueueRep (q.push x).2 (l ++ [x])) ∧
    (l.length = N → (q.push x).1 = false ∧ (q.push x).2 = q) := by
  obtain ⟨hN, hlen, hhead, hcount, hle, htail, helem⟩ := hr
  constructor
  · intro hlt
    have hnot : ¬ N ≤ q.count := by omega
    unfold Queue.push
    rw [if_neg hnot]
    refine ⟨rfl, hN, ?_, hhead, ?_, ?_, ?_, ?_⟩
    · simpa using hlen
    · simp [hcount]
    · simp
      omega
    · rw [htail, Nat.mod_add_mod, hcount, Nat.add_assoc]
    · intro j hj
      simp only [List.length_append, List.length_singleton] at hj
      by_cases hjl : j < l.length
      · have hne : (q.head + j) % N ≠ q.tail := by
          rw [htail]
          intro hcontra
          have := add_mod_inj (Nat.lt_of_lt_of_le hjl hle)
            (by omega : q.count < N) hcontra
          omega
        have hne2 : q.tail ≠ (q.head + j) % N := fun hh => hne hh.symm
        simp only [List.getD_eq_getElem?_getD, List.getElem?_set_ne hne2,
          List.getElem?_append_left hjl]
        have := helem j hjl
        simpa [List.getD_eq_getElem?_getD] using this
      · have hj' : j = l.length := by omega
        subst hj'
        have hidx : (q.head + l.length) % N = q.tail := by rw [htail, hcount]
        rw [hidx]
        have htlt : q.tail < q.buffer.length := by
          rw [hlen, htail]
          exact Nat.mod_lt _ hN
        rw [getD_set_self_nat htlt]
        simp [List.getD_eq_getElem?_getD, List.getElem?_concat_length]
  · intro heq
    have hfull : N ≤ q.count := by omega
    unfold Queue.push
    rw [if_pos hfull]
    exact ⟨rfl, rfl⟩

/-- pop on an empty queue fails and leaves the queue unchanged. -/
theorem queueRep_pop_nil {α : Type} [Inhabited α] {N : Nat} (q : Queue α N)
    (hr : QueueRep q []) : q.pop = (none, q) := by
  unfold Queue.pop
  rw [if_pos (by simpa using hr.hcount)]

/-- pop on a non-empty queue returns the oldest element and represents the
tail of the list. -/
theorem queueRep_pop_cons {α : Type} [Inhabited α] {N : Nat} (q : Queue α N)
    (a : α) (l : List α) (hr : QueueRep q (a :: l)) :
    (q.pop).1 = some a ∧ QueueRep (q.pop).2 l := by
  obtain ⟨hN, hlen, hhead, hcount, hle, htail, helem⟩ := hr
  have hne : ¬ q.count = 0 := by simp [hcount]
  unfold Queue.pop
  rw [if_neg hne]
  constructor
  · have h0 := helem 0 (by simp)
    rw [Nat.add_zero, Nat.mod_eq_of_lt hhead] at h0
    simp only [List.getD_cons_zero] at h0
    exact congrArg some h0
  · refine ⟨hN, hlen, Nat.mod_lt _ hN, by simp [hcount], by simp at hle; omega, ?_, ?_⟩
    · simp only [htail, hcount, Nat.mod_add_mod, List.length_cons]
      congr 1
      omega
    · intro j hj
      have hstep : ((q.head + 1) % N + j) % N = (q.head + (j + 1)) % N := by
        rw [Nat.mod_add_mod]
        congr 1
        omega
      simp only [hstep]
      have := helem (j + 1) (by simp; omega)
      simpa using this

/-- Along any operation sequence, the concatenation of the represented list
after the pushes equals the popped items followed by the remaining
content. -/
theorem runQueue_rep {α : Type} [Inhabited α] {N : Nat} (ops : List (QueueOp α)) :
    ∀ (q : Queue α N) (l : List α), QueueRep q l →
      ∃ lf, QueueRep (runQueue q ops).1 lf ∧
        l ++ (runQueue q ops).2.1 = (runQueue q ops).2.2 ++ lf := by
  induction ops with
  | nil =>
      intro q l hr
      exact ⟨l, hr, by simp [runQueue]⟩
  | cons op ops ih =>
      intro q l hr
      cases op with
      | push x =>
          by_cases hlt : l.length < N
          · obtain ⟨ht, hr2⟩ := (queueRep_push q l hr x).1 hlt
            obtain ⟨lf, hrf, heq⟩ := ih (q.push x).2 (l ++ [x]) hr2
            refine ⟨lf, ?_, ?_⟩
            · simpa [runQueue] using hrf
            · simp only [runQueue, ht, if_pos]
              simp only [List.append_assoc, List.singleton_append] at heq
              simpa using heq
          · have heqN : l.length = N := by
              have := hr.hle
              omega
            obtain ⟨ht, hq⟩ := (queueRep_push q l hr x).2 heqN
            obtain ⟨lf, hrf, heq⟩ := ih (q.push x).2 l (by rw [hq]; exact hr)
            refine ⟨lf, ?_, ?_⟩
            · simpa [runQueue] using hrf
            · simp only [runQueue, ht]
              simpa using heq
      | pop =>
          cases l with
          | nil =>
              have hp := queueRep_pop_nil q hr
              obtain ⟨lf, hrf, heq⟩ := ih (q.pop).2 [] (by rw [hp]; exact hr)
              refine ⟨lf, ?_, ?_⟩
              · simpa [runQueue] using hrf
              · simp only [runQueue, hp]
                simpa [hp] using heq
          | cons a l' =>
              obtain ⟨hp1, hr2⟩ := queueRep_pop_cons q a l' hr
              obtain ⟨lf, hrf, heq⟩ := ih (q.pop).2 l' hr2
              refine ⟨lf, ?_, ?_⟩
              · simpa [runQueue] using hrf
              · simp only [runQueue, hp1]
                simpa using heq

/-- Claim C7: for any operation sequence by one producer and one consumer
on a queue of capacity N, the successfully popped items form a prefix of
the successfully pushed items (strict FIFO); push fails exactly when count
equals the capacity and pop fails exactly when count is zero; and both
operations keep count within [0, N], advancing tail and head modulo N. -/
theorem queue_fifo_and_invariants {α : Type} [Inhabited α] {N : Nat} (hN : 0 < N)
    (a0 : α) (ops : List (QueueOp α)) :
    (∃ rest, (runQueue (Queue.mkEmpty α N a0) ops).2.1 =
        (runQueue (Queue.mkEmpty α N a0) ops).2.2 ++ rest) ∧
    (∀ (q : Queue α N) (l : List α) (x : α), QueueRep q l →
        (((q.push x).1 = false) ↔ q.count = N) ∧
        (∃ l2, QueueRep (q.push x).2 l2) ∧
        (q.count < N → (q.push x).2.tail = (q.tail + 1) % N ∧
          (q.push x).2.count = q.count + 1) ∧
        q.count ≤ N) ∧
    (∀ (q : Queue α N) (l : List α), QueueRep q l →
        (((q.pop).1 = none) ↔ q.count = 0) ∧
        (∃ l2, QueueRep (q.pop).2 l2) ∧
        (0 < q.count → (q.pop).2.head = (q.head + 1) % N ∧
          (q.pop).2.count = q.count - 1)) := by
  refine ⟨?_, ?_, ?_⟩
  · obtain ⟨lf, _, heq⟩ :=
      runQueue_rep ops (Queue.mkEmpty α N a0) [] (queueRep_mkEmpty hN a0)
    exact ⟨lf, by simpa using heq⟩
  · intro q l x hr
    have hcle : q.count ≤ N := by
      have h1 := hr.hle
      have h2 := hr.hcount
      omega
    refine ⟨?_, ?_, ?_, hcle⟩
    · unfold Queue.push
      by_cases hf : N ≤ q.count
      · rw [if_pos hf]
        exact iff_of_true rfl (by omega)
      · rw [if_neg hf]
        exact iff_of_false (by simp) (by omega)
    · by_cases hlt : q.count < N
      · have := (queueRep_push q l hr x).1 (by rw [← hr.hcount]; exact hlt)
        exact ⟨l ++ [x], this.2⟩
      · have heqN : l.length = N := by
          have h1 := hr.hle
          have h2 := hr.hcount
          omega
        have := (queueRep_push q l hr x).2 heqN
        exact ⟨l, by rw [this.2]; exact hr⟩
    · intro hlt
      unfold Queue.push
      rw [if_neg (by omega)]
      exact ⟨rfl, rfl⟩
  · intro q l hr
    refine ⟨?_, ?_, ?_⟩
    · unfold Queue.pop
      by_cases h0 : q.count = 0
      · rw [if_pos h0]
        exact iff_of_true rfl h0
      · rw [if_neg h0]
        exact iff_of_false (by simp) h0
    · cases l with
      | nil =>
          have := queueRep_pop_nil q hr
          exact ⟨[], by rw [this]; exact hr⟩
      | cons a l' => exact ⟨l', (queueRep_pop_cons q a l' hr).2⟩
    · intro hlt
      unfold Queue.pop
      rw [if_neg (by omega)]
      exact ⟨rfl, rfl⟩

/-- Witness for C7 on a capacity-2 Nat queue and a concrete operation
sequence. -/
theorem queue_fifo_and_invariants_witness :
    0 < 2 ∧
    ((∃ rest, (runQueue (Queue.mkEmpty Nat 2 0)
        [QueueOp.push 7, QueueOp.push 8, QueueOp.pop, QueueOp.pop]).2.1 =
        (runQueue (Queue.mkEmpty Nat 2 0)
          [QueueOp.push 7, QueueOp.push 8, QueueOp.pop, QueueOp.pop]).2.2 ++ rest) ∧
     (∀ (q : Queue Nat 2) (l : List Nat) (x : Nat), QueueRep q l →
        (((q.push x).1 = false) ↔ q.count = 2) ∧
        (∃ l2, QueueRep (q.push x).2 l2) ∧
        (q.count < 2 → (q.push x).2.tail = (q.tail + 1) % 2 ∧
          (q.push x).2.count = q.count + 1) ∧
        q.count ≤ 2) ∧
     (∀ (q : Queue Nat 2) (l : List Nat), QueueRep q l →
        (((q.pop).1 = none) ↔ q.count = 0) ∧
        (∃ l2, QueueRep (q.pop).2 l2) ∧
        (0 < q.count → (q.pop).2.head = (q.head + 1) % 2 ∧
          (q.pop).2.count = q.count - 1))) :=
  ⟨by decide,
   queue_fifo_and_invariants (by decide) 0
     [QueueOp.push 7, QueueOp.push 8, QueueOp.pop, QueueOp.pop]⟩

/-- A detokenized token is never one of the terminal marker emissions: for
tokens below 128 it is a single character (length 1), otherwise it starts
with an opening bracket while every marker emission starts with a
newline. -/
theorem isTerminalMarker4_detokenize (t : Nat) :
    isTerminalMarker4 (detokenize t) = false := by
  unfold isTerminalMarker4 isTerminalMarker3 detokenize
  by_cases h : t < 128
  · rw [if_pos h]
    have hne : ∀ s : String, s.data.length ≠ 1 →
        (String.singleton (Char.ofNat t) == s) = false := by
      intro s hs
      exact beq_eq_false_iff_ne.mpr (fun he => hs (by rw [← he]; rfl))
    rw [hne eosMark (by decide), hne abortMark (by decide),
      hne maxTokensMark (by decide), hne shutdownAbortMark (by decide)]
    rfl
  · rw [if_neg h]
    have hne : ∀ s : String, s.data.head? ≠ some (Char.ofNat 91) →
        (("[T" ++ toString t ++ "]") == s) = false := by
      intro s hs
      refine beq_eq_false_iff_ne.mpr (fun he => hs ?_)
      rw [← he, String.data_append, String.data_append]
      rfl
    rw [hne eosMark (by decide), hne abortMark (by decide),
      hne maxTokensMark (by decide), hne shutdownAbortMark (by decide)]
    rfl

/-- genExit always lands at top level. -/
theorem genExit_phase (st : EngineState) (a : Accelerator) :
    (genExit st a).phase = EnginePhase.topLevel := by
  unfold genExit
  split <;> rfl

theorem count4_abort_memcleared :
    List.countP isTerminalMarker4 [abortMark, memClearedGenMark] = 1 := by decide

theorem count4_abort : List.countP isTerminalMarker4 [abortMark] = 1 := by decide

theorem count4_eos : List.countP isTerminalMarker4 [eosMark] = 1 := by decide

theorem count4_max : List.countP isTerminalMarker4 [maxTokensMark] = 1 := by decide

theorem count4_shutdown :
    List.countP isTerminalMarker4 [shutdownAbortMark] = 1 := by decide

/-- The generation loop body after the command switch either exits to top
level having emitted exactly one terminal marker, or stays in the loop
having emitted none. -/
theorem genLoopRest_cases (st : EngineState) (tc : Nat) (accel : Accelerator) :
    ((genLoopRest st tc accel).1.phase = EnginePhase.topLevel ∧
      (genLoopRest st tc accel).2.countP isTerminalMarker4 = 1) ∨
    ((∃ tc2, (genLoopRest st tc accel).1.phase = EnginePhase.inGen tc2) ∧
      (genLoopRest st tc accel).2.countP isTerminalMarker4 = 0) := by
  unfold genLoopRest
  split
  · split
    · exact Or.inl ⟨genExit_phase _ _, count4_abort_memcleared⟩
    · exact Or.inl ⟨genExit_phase _ _, count4_abort⟩
  · rcases hgnt : accel.getNextToken with ⟨ok, tok, a2⟩
    dsimp only
    split
    · split
      · exact Or.inl ⟨genExit_phase _ _, count4_eos⟩
      · refine Or.inr ⟨⟨tc + 1, rfl⟩, ?_⟩
        simp [List.countP_cons, isTerminalMarker4_detokenize]
    · exact Or.inr ⟨⟨tc, rfl⟩, by simp [List.countP_nil]⟩

/-- One engine step taken inside the generation loop either exits to top
level emitting exactly one terminal marker, or stays in the loop emitting
none. -/
theorem inGen_step_cases (st : EngineState) (accel : Accelerator) (tc : Nat)
    (p : Option Command) :
    ((engineSmallStep ⟨EnginePhase.inGen tc, st, accel⟩ p none).1.phase =
        EnginePhase.topLevel ∧
      (engineSmallStep ⟨EnginePhase.inGen tc, st, accel⟩ p none).2.countP
        isTerminalMarker4 = 1) ∨
    ((∃ tc2, (engineSmallStep ⟨EnginePhase.inGen tc, st, accel⟩ p none).1.phase =
        EnginePhase.inGen tc2) ∧
      (engineSmallStep ⟨EnginePhase.inGen tc, st, accel⟩ p none).2.countP
        isTerminalMarker4 = 0) := by
  unfold engineSmallStep
  simp only
  split
  · exact Or.inl ⟨genExit_phase _ _, count4_max⟩
  · rcases p with _ | ⟨⟨ct⟩⟩
    · exact genLoopRest_cases st tc accel
    · cases ct with
      | SHUTDOWN => exact Or.inl ⟨genExit_phase _ _, count4_shutdown⟩
      | RESET => exact genLoopRest_cases _ tc accel
      | STOP_CURRENT => exact genLoopRest_cases _ tc accel

/-- genRun at top level returns immediately. -/
theorem genRun_top (m : MState) (polls : List (Option Command))
    (acc_out : List String) (h : m.phase = EnginePhase.topLevel) :
    genRun m polls acc_out = some (m, acc_out) := by
  obtain ⟨ph, st, a⟩ := m
  simp only at h
  subst h
  cases polls <;> rfl

/-- genRun inside the loop with an exhausted poll stream is undetermined. -/
theorem genRun_inGen_nil (m : MState) (acc_out : List String) (tc : Nat)
    (h : m.phase = EnginePhase.inGen tc) : genRun m [] acc_out = none := by
  obtain ⟨ph, st, a⟩ := m
  simp only at h
  subst h
  rfl

/-- genRun inside the loop consumes one poll and recurses. -/
theorem genRun_inGen_cons (m : MState) (p : Option Command)
    (rest : List (Option Command)) (acc_out : List String) (tc : Nat)
    (h : m.phase = EnginePhase.inGen tc) :
    genRun m (p :: rest) acc_out =
      genRun (engineSmallStep m p none).1 rest
        (acc_out ++ (engineSmallStep m p none).2) := by
  obtain ⟨ph, st, a⟩ := m
  simp only at h
  subst h
  rfl

/-- Whenever the generation loop terminates within the supplied poll
stream, the collected output contains exactly one more terminal marker than
the accumulator it started with. -/
theorem genRun_count (polls : List (Option Command)) :
    ∀ (m : MState) (acc_out : List String) (m2 : MState) (tr : List String),
      (∃ tc, m.phase = EnginePhase.inGen tc) →
      genRun m polls acc_out = some (m2, tr) →
      tr.countP isTerminalMarker4 = acc_out.countP isTerminalMarker4 + 1 := by
  induction polls with
  | nil =>
      intro m acc_out m2 tr hph hrun
      obtain ⟨tc, hph⟩ := hph
      rw [genRun_inGen_nil m acc_out tc hph] at hrun
      cases hrun
  | cons p rest ih =>
      intro m acc_out m2 tr hph hrun
      obtain ⟨tc, hph⟩ := hph
      obtain ⟨ph, st, accel⟩ := m
      simp only at hph
      subst hph
      rw [genRun_inGen_cons _ p rest acc_out tc rfl] at hrun
      rcases inGen_step_cases st accel tc p with ⟨hph2, hcnt⟩ | ⟨⟨tc2, hph2⟩, hcnt⟩
      · rw [genRun_top _ rest _ hph2] at hrun
        have htr : tr = acc_out ++
            (engineSmallStep ⟨EnginePhase.inGen tc, st, accel⟩ p none).2 := by
          cases hrun
          rfl
        rw [htr, List.countP_append, hcnt]
      · have := ih _ (acc_out ++ (engineSmallStep
          ⟨EnginePhase.inGen tc, st, accel⟩ p none).2) m2 tr ⟨tc2, hph2⟩ hrun
        rw [this, List.countP_append, hcnt]

/-- Claim C3 (amended): for every task popped at an idle top level and run
through the generation routine, whenever the run terminates (returning the
engine to top level, in state Idle or ShuttingDown), the emitted output
contains exactly one terminal marker from the set consisting of the EOS
marker, the Aborted marker, the Max-tokens marker and the shutdown abort
marker (the shutdown path emits its own distinct marker rather than the
plain Aborted one) — never zero and never more than one. -/
theorem taskRun_exactly_one_marker (task : EngineTask) (polls : List (Option Command))
    (st : EngineState) (accel : Accelerator) (m2 : MState) (tr : List String)
    (hidle : st.status = EngineStatus.IDLE)
    (hrun : taskRun task polls st accel = some (m2, tr)) :
    tr.countP isTerminalMarker4 = 1 := by
  unfold taskRun at hrun
  have hstep : engineSmallStep ⟨EnginePhase.topLevel, st, accel⟩ none (some task) =
      (⟨EnginePhase.inGen 0,
        { st with
          currentTaskId := task.id,
          status := EngineStatus.GENERATING,
          cancelCurrent := false,
          resetRequested := false },
        accel.startInference task.id (tokenize task.prompt)⟩, [generatingMark]) := by
    unfold engineSmallStep
    simp [hidle]
  simp only at hrun
  rw [hstep] at hrun
  simp only at hrun
  have hcount := genRun_count polls _ [generatingMark] m2 tr ⟨0, rfl⟩ hrun
  rw [hcount]
  decide

/-- Witness for C3 (amended) on a concrete run: task 1 aborted by a STOP
command after one loop iteration. -/
theorem taskRun_exactly_one_marker_witness :
    (EngineState.mkInit.status = EngineStatus.IDLE ∧
     taskRun cexGenTask [some (Command.mk CommandType.STOP_CURRENT)]
       EngineState.mkInit Accelerator.mkInit =
       some (⟨EnginePhase.topLevel, ⟨EngineStatus.IDLE, -1, true, false⟩,
         Accelerator.mkInit.startInference 1 (tokenize "hi")⟩,
         [generatingMark, abortMark])) ∧
    List.countP isTerminalMarker4 [generatingMark, abortMark] = 1 :=
  ⟨⟨rfl, rfl⟩,
   taskRun_exactly_one_marker cexGenTask [some (Command.mk CommandType.STOP_CURRENT)]
     EngineState.mkInit Accelerator.mkInit
     ⟨EnginePhase.topLevel, ⟨EngineStatus.IDLE, -1, true, false⟩,
       Accelerator.mkInit.startInference 1 (tokenize "hi")⟩
     [generatingMark, abortMark] rfl rfl⟩

/-- Counterexample to C3 as stated: a SHUTDOWN command observed during
generation terminates the run (the engine enters ShuttingDown), yet none of
the three verbatim markers from the specification (the EOS marker, the
Aborted marker, the Max-tokens marker) is emitted — the source emits the
distinct string of shutdownAbortMark instead. -/
theorem runGeneration_shutdown_marker_cex :
    taskRun cexGenTask [some (Command.mk CommandType.SHUTDOWN)]
      EngineState.mkInit Accelerator.mkInit =
      some (⟨EnginePhase.topLevel, ⟨EngineStatus.SHUTTING_DOWN, 1, true, false⟩,
        Accelerator.mkInit.startInference 1 (tokenize "hi")⟩,
        [generatingMark, shutdownAbortMark]) ∧
    List.countP isTerminalMarker3 [generatingMark, shutdownAbortMark] = 0 :=
  ⟨rfl, by decide⟩

/-- genExit establishes the top-level part of the invariant whenever the
state it leaves with has no pending reset and a generation or shutdown
status. -/
theorem strongInv_genExit (st : EngineState) (a : Accelerator)
    (hreset : st.resetRequested = false)
    (hst : st.status = EngineStatus.GENERATING ∨
      st.status = EngineStatus.SHUTTING_DOWN) :
    StrongInv (genExit st a) := by
  unfold StrongInv genExit
  rcases hst with h | h
  · rw [if_pos h]
    refine ⟨?_, ?_⟩
    · intro tc htc
      cases htc
    · intro _
      exact ⟨nofun, fun _ => ⟨rfl, hreset⟩⟩
  · rw [if_neg (by rw [h]; decide)]
    refine ⟨?_, ?_⟩
    · intro tc htc
      cases htc
    · intro _
      refine ⟨fun hh => by simp [h] at hh, fun hi => by simp [h] at hi⟩

/-- The generation loop body preserves the strengthened invariant. -/
theorem strongInv_genLoopRest (st : EngineState) (tc : Nat) (accel : Accelerator)
    (hstatus : st.status = EngineStatus.GENERATING)
    (hid : st.currentTaskId ≠ -1)
    (hcr : st.resetRequested = true → st.cancelCurrent = true) :
    StrongInv (genLoopRest st tc accel).1 := by
  unfold genLoopRest
  split
  · split
    · exact strongInv_genExit _ _ rfl (Or.inl hstatus)
    · next hreset =>
      exact strongInv_genExit _ _ (by simpa using hreset) (Or.inl hstatus)
  · next hcancel =>
    have hcf : st.cancelCurrent = false := by simpa using hcancel
    have hrf : st.resetRequested = false := by
      cases hr : st.resetRequested
      · rfl
      · exact absurd (hcr hr) (by simp [hcf])
    rcases hgnt : accel.getNextToken with ⟨ok, tok, a2⟩
    dsimp only
    split
    · split
      · exact strongInv_genExit _ _ hrf (Or.inl hstatus)
      · refine ⟨?_, ?_⟩
        · intro tc2 _
          exact ⟨hstatus, hcf, hrf, hid⟩
        · intro htl
          exact absurd htl (by simp)
    · refine ⟨?_, ?_⟩
      · intro tc2 _
        exact ⟨hstatus, hcf, hrf, hid⟩
      · intro htl
        exact absurd htl (by simp)

/-- One engine step preserves the strengthened invariant, provided any
popped task carries a real id. -/
theorem strongInv_step (m : MState) (hm : StrongInv m) (c : Option Command)
    (t : Option EngineTask) (ht : ∀ tk, t = some tk → tk.id ≠ -1) :
    StrongInv (engineSmallStep m c t).1 := by
  obtain ⟨ph, st, accel⟩ := m
  obtain ⟨hgen, htop⟩ := hm
  cases ph with
  | topLevel =>
    obtain ⟨hngen, hidle⟩ := htop rfl
    unfold engineSmallStep
    dsimp only
    split
    · exact ⟨hgen, htop⟩
    · split
      · next hst =>
        rcases c with _ | ⟨⟨ct⟩⟩
        · rcases t with _ | ⟨tk⟩
          · exact ⟨hgen, htop⟩
          · dsimp only
            refine ⟨?_, ?_⟩
            · intro tc htc
              exact ⟨rfl, rfl, rfl, ht tk rfl⟩
            · intro htl
              exact absurd htl (by simp)
        · cases ct with
          | SHUTDOWN =>
            refine ⟨?_, ?_⟩
            · intro tc htc
              exact absurd htc (by simp)
            · intro _
              refine ⟨fun hh => by simp [handleTopLevelCommand] at hh,
                fun hi => by simp [handleTopLevelCommand] at hi⟩
          | RESET =>
            refine ⟨?_, ?_⟩
            · intro tc htc
              exact absurd htc (by simp)
            · intro _
              exact ⟨hngen, hidle⟩
          | STOP_CURRENT =>
            refine ⟨?_, ?_⟩
            · intro tc htc
              exact absurd htc (by simp)
            · intro _
              exact ⟨hngen, hidle⟩
      · exact ⟨hgen, htop⟩
  | inGen tc =>
    obtain ⟨hstatus, hcf, hrf, hid⟩ := hgen tc rfl
    unfold engineSmallStep
    dsimp only
    split
    · exact strongInv_genExit _ _ hrf (Or.inl hstatus)
    · rcases c with _ | ⟨⟨ct⟩⟩
      · exact strongInv_genLoopRest st tc accel hstatus hid
          (fun hr => by rw [hrf] at hr; cases hr)
      · cases ct with
        | SHUTDOWN => exact strongInv_genExit _ _ hrf (Or.inr rfl)
        | RESET =>
          apply strongInv_genLoopRest
          · exact hstatus
          · exact hid
          · intro _
            rfl
        | STOP_CURRENT =>
          apply strongInv_genLoopRest
          · exact hstatus
          · exact hid
          · intro _
            rfl

/-- Every reachable engine state satisfies the strengthened invariant. -/
theorem engineReach_strongInv (m : MState) (h : EngineReach m) : StrongInv m := by
  induction h with
  | init =>
      refine ⟨?_, ?_⟩
      · intro tc htc
        exact absurd htc (by simp [MState.mkInit])
      · intro _
        exact ⟨by simp [MState.mkInit, EngineState.mkInit], fun _ => ⟨rfl, rfl⟩⟩
  | step m c t hm ht ih => exact strongInv_step m ih c t ht

/-- Claim C4 (amended): at every reachable point of the engine-thread step
relation, Generating implies a set current task id; Idle implies an empty
current task id and a clear reset_pending flag (the cancel flag, however,
may remain set at Idle right after an aborted generation, until the next
generation clears it: see the counterexample theorem); and ShuttingDown is
terminal, no step leaves it. -/
theorem engine_state_invariants (m : MState) (h : EngineReach m) :
    (m.st.status = EngineStatus.GENERATING → m.st.currentTaskId ≠ -1) ∧
    (m.st.status = EngineStatus.IDLE →
      m.st.currentTaskId = -1 ∧ m.st.resetRequested = false) ∧
    (m.st.status = EngineStatus.SHUTTING_DOWN →
      ∀ c t, (engineSmallStep m c t).1 = m) := by
  obtain ⟨hgen, htop⟩ := engineReach_strongInv m h
  refine ⟨?_, ?_, ?_⟩
  · intro hg
    cases hph : m.phase with
    | topLevel => exact absurd hg (htop hph).1
    | inGen tc => exact (hgen tc hph).2.2.2
  · intro hi
    cases hph : m.phase with
    | topLevel => exact (htop hph).2 hi
    | inGen tc => exact absurd (hgen tc hph).1 (by rw [hi]; decide)
  · intro hsd c t
    cases hph : m.phase with
    | inGen tc => exact absurd (hgen tc hph).1 (by rw [hsd]; decide)
    | topLevel =>
        obtain ⟨ph, st, accel⟩ := m
        simp only at hph hsd
        subst hph
        unfold engineSmallStep
        simp [hsd]

/-- Witness for C4 (amended) at the initial engine state. -/
theorem engine_state_invariants_witness :
    EngineReach MState.mkInit ∧
    ((MState.mkInit.st.status = EngineStatus.GENERATING →
        MState.mkInit.st.currentTaskId ≠ -1) ∧
     (MState.mkInit.st.status = EngineStatus.IDLE →
        MState.mkInit.st.currentTaskId = -1 ∧
        MState.mkInit.st.resetRequested = false) ∧
     (MState.mkInit.st.status = EngineStatus.SHUTTING_DOWN →
        ∀ c t, (engineSmallStep MState.mkInit c t).1 = MState.mkInit)) :=
  ⟨EngineReach.init, engine_state_invariants MState.mkInit EngineReach.init⟩

/-- Counterexample to C4 as stated: after a generation is aborted by a STOP
command, the engine is back at Idle with the current task id cleared but
with cancel_flag (cancelCurrent) still true, violating the claimed Idle
invariant at a reachable state. -/
theorem engine_idle_cancel_flag_cex :
    EngineReach cexEngineM2 ∧
    cexEngineM2.st.status = EngineStatus.IDLE ∧
    cexEngineM2.st.cancelCurrent = true :=
  ⟨EngineReach.step cexEngineM1 (some (Command.mk CommandType.STOP_CURRENT)) none
      (EngineReach.step MState.mkInit none (some cexGenTask) EngineReach.init
        (fun tk htk => by
          injection htk with hh
          rw [← hh]
          decide))
      (fun tk htk => nomatch htk),
   rfl, rfl⟩
